import Mathlib

/-!
Verification of the mirror synchronization scripts of the docker-cgit
repository (src/scripts/mirror-sync-daemon.py, src/scripts/mirror-manager.py,
src/scripts/mirror-logger.py).

The embedding models:
- calendar time at minute granularity (structure DateTime), as used by the
  due-job computations;
- the five-field cron evaluator (the scripts import the bundled croniter
  library, which is not part of the provided sources; it is modelled from
  the spec: a five-field schedule -- minute, hour, day-of-month, month,
  day-of-week -- whose evaluation from an anchor yields the next fire time
  strictly after the anchor);
- the configuration data model and the operations of SimpleConfigManager
  (daemon) and MirrorConfig (CLI manager);
- the save procedures as sequences of filesystem operations, to state
  crash-atomicity;
- the log rotation procedures of SimpleLogger.check_rotation (daemon) and
  MirrorLogger._rotate_logs (mirror-logger.py) on the set of numbered
  backups;
- the bounded thread pool of sync_cycle as a labelled transition system.
-/

namespace DockerCgit

/-! ## Calendar time at minute granularity -/

/-- A wall-clock instant at minute granularity (the due computations of both
scripts compare datetimes; sub-minute precision is irrelevant to every claim
stated here). -/
structure DateTime where
  year : Nat
  month : Nat
  day : Nat
  hour : Nat
  minute : Nat
deriving DecidableEq

/-- Leap year rule of the Gregorian calendar. -/
def isLeap (y : Nat) : Bool :=
  (y % 4 = 0 && y % 100 != 0) || y % 400 = 0

/-- Number of days of month m of year y. -/
def daysInMonth (y m : Nat) : Nat :=
  if m = 2 then (if isLeap y then 29 else 28)
  else if m = 4 || m = 6 || m = 9 || m = 11 then 30
  else 31

/-- A DateTime with all fields in calendar range (the year is unconstrained). -/
def validDT (d : DateTime) : Bool :=
  d.minute < 60 && d.hour < 24 && 1 ≤ d.day && d.day ≤ daysInMonth d.year d.month
    && 1 ≤ d.month && d.month ≤ 12

/-- Injective linearization of a valid DateTime, used for chronological
comparison (datetime comparison in Python is lexicographic on the fields,
which agrees with this encoding on valid values). -/
def encode (d : DateTime) : Nat :=
  (((d.year * 13 + d.month) * 32 + d.day) * 24 + d.hour) * 60 + d.minute

/-- Chronological comparison, Boolean form. -/
def dtLe (a b : DateTime) : Bool := encode a ≤ encode b

/-- Strict chronological comparison, Boolean form. -/
def dtLt (a b : DateTime) : Bool := encode a < encode b

/-- The minute after d, with calendar carry. -/
def DateTime.succMin (d : DateTime) : DateTime :=
  if d.minute + 1 < 60 then { d with minute := d.minute + 1 }
  else if d.hour + 1 < 24 then { d with minute := 0, hour := d.hour + 1 }
  else if d.day + 1 ≤ daysInMonth d.year d.month then
    { d with minute := 0, hour := 0, day := d.day + 1 }
  else if d.month + 1 ≤ 12 then
    { d with minute := 0, hour := 0, day := 1, month := d.month + 1 }
  else ⟨d.year + 1, 1, 1, 0, 0⟩

/-! ## Cron expressions

Modelled from the spec: the scripts delegate schedule evaluation to the
bundled croniter library, which is absent from the provided sources. The
spec describes it as a five-field cron expression (minute, hour,
day-of-month, month, day-of-week) defining recurring fire times, evaluated
from an anchor to obtain the next fire time strictly after the anchor. A
parsed field is the list of allowed values; a time fires when every field
allows it. -/

structure Cron where
  minute : List Nat
  hour : List Nat
  dom : List Nat
  month : List Nat
  dow : List Nat
deriving DecidableEq

/-- Values lo, lo+step, ... up to hi. -/
def rangeStep (lo hi step : Nat) : List Nat :=
  ((List.range (hi + 1 - lo)).map (· + lo)).filter (fun v => (v - lo) % step = 0)

/-- Split a character list on a separator (Python str.split with one
separator character). -/
def splitCh (sep : Char) : List Char → List (List Char)
  | [] => [[]]
  | c :: cs =>
    let r := splitCh sep cs
    if c = sep then [] :: r
    else
      match r with
      | [] => [[c]]
      | g :: gs => (c :: g) :: gs

/-- Decimal number denoted by a nonempty all-digit character list. -/
def digitsToNat (cs : List Char) : Option Nat :=
  if cs.isEmpty then none
  else
    cs.foldl
      (fun acc c =>
        match acc with
        | some a =>
          if c.isDigit then some (a * 10 + (c.toNat - 48)) else none
        | none => none)
      (some 0)

/-- Parse one atom of a cron field: a number, a range a-b, or the wildcard. -/
def parseAtom (lo hi : Nat) (base : List Char) (step : Nat) : Option (List Nat) :=
  if step = 0 then none
  else if base = ['*'] then some (rangeStep lo hi step)
  else
    match splitCh '-' base with
    | [v] =>
      match digitsToNat v with
      | some n => if lo ≤ n && n ≤ hi then some (rangeStep n n step) else none
      | none => none
    | [a, b] =>
      match digitsToNat a, digitsToNat b with
      | some x, some y =>
        if lo ≤ x && x ≤ y && y ≤ hi then some (rangeStep x y step) else none
      | _, _ => none
    | _ => none

/-- Parse one item of a comma-list: atom or atom/step. -/
def parseItem (lo hi : Nat) (s : List Char) : Option (List Nat) :=
  match splitCh '/' s with
  | [base] => parseAtom lo hi base 1
  | [base, st] =>
    match digitsToNat st with
    | some k => parseAtom lo hi base k
    | none => none
  | _ => none

/-- Parse a whole cron field (comma-separated items) into its allowed values. -/
def parseField (lo hi : Nat) (s : List Char) : Option (List Nat) :=
  (splitCh ',' s).foldr
    (fun part acc =>
      match parseItem lo hi part, acc with
      | some vs, some rest => some (vs ++ rest)
      | _, _ => none)
    (some [])

/-- Parse a five-field cron expression (whitespace-separated fields). -/
def parseCron (s : String) : Option Cron :=
  match (splitCh ' ' s.toList).filter (fun f => !f.isEmpty) with
  | [f1, f2, f3, f4, f5] =>
    match parseField 0 59 f1, parseField 0 23 f2, parseField 1 31 f3,
        parseField 1 12 f4, parseField 0 6 f5 with
    | some mi, some ho, some dm, some mo, some dw => some ⟨mi, ho, dm, mo, dw⟩
    | _, _, _, _, _ => none
  | _ => none

/-- Day of week of a date, 0 = Sunday, via the Zeller congruence. -/
def dayOfWeek (d : DateTime) : Nat :=
  let y := if d.month ≤ 2 then d.year - 1 else d.year
  let m := if d.month ≤ 2 then d.month + 12 else d.month
  let k := y % 100
  let j := y / 100
  let h := (d.day + (13 * (m + 1)) / 5 + k + k / 4 + j / 4 + 5 * j) % 7
  (h + 6) % 7

/-- Does instant d fire under the cron expression? -/
def cronMatches (c : Cron) (d : DateTime) : Bool :=
  c.minute.contains d.minute && c.hour.contains d.hour && c.dom.contains d.day
    && c.month.contains d.month && c.dow.contains (dayOfWeek d)

/-- Fuel-bounded forward search for the next firing minute. -/
def cronSearch (c : Cron) : Nat → DateTime → Option DateTime
  | 0, _ => none
  | fuel + 1, d => if cronMatches c d then some d else cronSearch c fuel d.succMin

/-- A little over two years of minutes: enough fuel for any recurring
schedule; a schedule with no real fire date exhausts it (modelling the
croniter search failure, which surfaces as an exception). -/
def cronFuel : Nat := 1200000

/-- Next fire time strictly after the anchor (modelled from the spec:
croniter(schedule, anchor).get_next(datetime)). -/
def cronNext (c : Cron) (anchor : DateTime) : Option DateTime :=
  cronSearch c cronFuel anchor.succMin

/-! ## Timestamps

The scripts store timestamps as ISO strings (datetime.isoformat, the daemon
appending a Z suffix) and parse them back with datetime.fromisoformat. The
parser below reads the minute-granularity prefix YYYY-MM-DDTHH:MM and
validates calendar ranges; the remainder of the string (seconds,
microseconds, offset) is ignored, which is sound because no claim stated
here depends on sub-minute precision. -/

/-- Decimal value of a digit character, if it is one. -/
def digitVal (c : Char) : Option Nat :=
  if c.isDigit then some (c.toNat - 48) else none

/-- Two-digit decimal number. -/
def twoDigits (a b : Char) : Option Nat := do
  let x ← digitVal a
  let y ← digitVal b
  pure (x * 10 + y)

/-- Parse the minute-granularity prefix of an ISO-8601 timestamp and
validate it. -/
def parseTs (s : String) : Option DateTime :=
  match s.toList with
  | y1 :: y2 :: y3 :: y4 :: '-' :: m1 :: m2 :: '-' :: d1 :: d2 :: 'T'
      :: h1 :: h2 :: ':' :: n1 :: n2 :: _ => do
    let yh ← twoDigits y1 y2
    let yl ← twoDigits y3 y4
    let mo ← twoDigits m1 m2
    let da ← twoDigits d1 d2
    let ho ← twoDigits h1 h2
    let mi ← twoDigits n1 n2
    let dt : DateTime := ⟨yh * 100 + yl, mo, da, ho, mi⟩
    if validDT dt then some dt else none
  | _ => none

/-- Replace every Z by +00:00, character-wise. -/
def replaceZ : List Char → List Char
  | [] => []
  | c :: cs =>
    if c = 'Z' then '+' :: '0' :: '0' :: ':' :: '0' :: '0' :: replaceZ cs
    else c :: replaceZ cs

/-- The normalization the daemon applies before parsing a stored timestamp:
last_sync_str.replace(Z, +00:00) (the offset is then discarded again by
replace(tzinfo=None); parseTs ignores everything past the minutes, so the
net effect on the parsed value is nil). -/
def stripZ (s : String) : String := ⟨replaceZ s.data⟩

/-! ## Configuration data model

Mirrors the JSON structure handled by both scripts: a root object with
version, defaults (schedule, timeout, max_concurrent) and a mirrors map of
name to entry. Python dicts preserve insertion order; the mirrors map is an
association list. Optional fields of an entry model absent JSON keys. -/

structure Mirror where
  enabled : Option Bool
  schedule : Option String
  timeout : Option Nat
  lastSync : Option String
  lastStatus : Option String
  lastError : Option String
  nextSync : Option String
  lastDuration : Option Nat
deriving DecidableEq

structure Defaults where
  schedule : String
  timeout : Nat
  maxConcurrent : Nat
deriving DecidableEq

structure Config where
  version : String
  defaults : Defaults
  mirrors : List (String × Mirror)
deriving DecidableEq

/-- Membership test of repo_name in config mirrors (Python: name in dict). -/
def hasMirror (cfg : Config) (name : String) : Bool :=
  cfg.mirrors.any (fun p => p.1 = name)

/-! ## Stable sort by string key

Both get_due_mirrors implementations end with
list.sort(key=lambda x: last_sync or empty-string): a stable ascending sort
comparing ISO timestamp strings (Python string comparison is code-point
lexicographic, as is the Lean String order). -/

/-- Strict code-point lexicographic comparison of character lists (the
order Python string comparison uses). -/
def lexLt : List Char → List Char → Bool
  | _, [] => false
  | [], _ :: _ => true
  | a :: as, b :: bs => if a < b then true else if b < a then false else lexLt as bs

/-- Strict string comparison by code points. -/
def strLt (a b : String) : Bool := lexLt a.toList b.toList

/-- Stable insertion of x into a list sorted ascending by key: x goes before
the first element whose key is strictly greater. -/
def insSorted {α : Type} (key : α → String) (x : α) : List α → List α
  | [] => [x]
  | y :: ys => if strLt (key y) (key x) then y :: insSorted key x ys else x :: y :: ys

/-- Stable ascending sort by a string key (the semantics of Python
list.sort with a key function). -/
def sortByKey {α : Type} (key : α → String) (l : List α) : List α :=
  l.foldr (insSorted key) []

/-! ## The two due-job computations

Embeddings of SimpleConfigManager.get_due_mirrors (daemon, lines 148-186)
and MirrorConfig.get_due_mirrors (CLI manager, lines 202-232). -/

/-- The far-past anchor the daemon uses for a never-synced entry
(datetime(2000, 1, 1)). -/
def sentinel : DateTime := ⟨2000, 1, 1, 0, 0⟩

/-- The daemon computation inside the per-entry try block: parse the stored
last_sync (after Z normalization) or fall back to the sentinel, parse the
schedule, take the next fire time. A none models the exception path (the
entry is logged and skipped). -/
def daemonEval (sched : String) (lastSync : Option String) : Option DateTime := do
  let anchor ← match lastSync with
    | some s => parseTs (stripZ s)
    | none => some sentinel
  let c ← parseCron sched
  cronNext c anchor

/-- One element of the due list the daemon builds: name, effective timeout
and the stored last_sync string. -/
structure DueItem where
  name : String
  timeout : Nat
  lastSync : Option String
deriving DecidableEq

/-- Per-entry due decision of the daemon: skip when enabled is false
(absent defaults to true), resolve the schedule from the defaults, skip on
any evaluation error, otherwise due iff the next fire time is at or before
now. -/
def daemonDueItem (defaults : Defaults) (now : DateTime) (n : String)
    (m : Mirror) : Option DueItem :=
  if !(m.enabled.getD true) then none
  else
    match daemonEval (m.schedule.getD defaults.schedule) m.lastSync with
    | some next =>
      if dtLe next now then some ⟨n, m.timeout.getD defaults.timeout, m.lastSync⟩
      else none
    | none => none

/-- The unsorted due list of the daemon. -/
def daemonDueFilter (cfg : Config) (now : DateTime) : List DueItem :=
  cfg.mirrors.filterMap (fun p => daemonDueItem cfg.defaults now p.1 p.2)

/-- Sort key of the daemon: x.last_sync or the empty string. -/
def dueKey (d : DueItem) : String := d.lastSync.getD ""

/-- SimpleConfigManager.get_due_mirrors: filter then stable sort by
last_sync (oldest first). -/
def daemonGetDueMirrors (cfg : Config) (now : DateTime) : List DueItem :=
  sortByKey dueKey (daemonDueFilter cfg now)

/-- The manager computation inside the per-entry try block: the anchor is
the parsed last_sync if present, else now itself; the schedule key must be
present and parse; take the next fire time. A none models the exception
path. -/
def managerEval (m : Mirror) (now : DateTime) : Option DateTime := do
  let anchor ← match m.lastSync with
    | some s => parseTs s
    | none => some now
  let sched ← m.schedule
  let c ← parseCron sched
  cronNext c anchor

/-- Per-entry due decision of the manager: skip when enabled is false
(absent defaults to false); on successful evaluation due iff the next fire
time is at or before now; on an exception the entry is included exactly
when it has no last_sync. -/
def managerDueEntry (now : DateTime) (n : String) (m : Mirror) :
    Option (String × Mirror) :=
  if !(m.enabled.getD false) then none
  else
    match managerEval m now with
    | some next => if dtLe next now then some (n, m) else none
    | none => if m.lastSync.isNone then some (n, m) else none

/-- The unsorted due list of the manager. -/
def managerDueFilter (cfg : Config) (now : DateTime) : List (String × Mirror) :=
  cfg.mirrors.filterMap (fun p => managerDueEntry now p.1 p.2)

/-- Sort key of the manager: entry last_sync or the empty string. -/
def mgrKey (p : String × Mirror) : String := p.2.lastSync.getD ""

/-- MirrorConfig.get_due_mirrors: filter then stable sort by last_sync
(oldest first, absent first). -/
def managerGetDueMirrors (cfg : Config) (now : DateTime) :
    List (String × Mirror) :=
  sortByKey mgrKey (managerDueFilter cfg now)

/-! ## Saving the configuration

The save paths are modelled as sequences of filesystem micro-operations on
a mapping from path to contents; a crash point is a prefix of the sequence.
MirrorConfig.save (mirror-manager.py lines 63-74) writes a temp file then
renames; SimpleConfigManager.save_config (mirror-sync-daemon.py lines
142-146) opens the final path for writing directly. -/

inductive FsOp where
  | truncate (p : String)
  | append (p : String) (data : String)
  | rename (src : String) (dst : String)
deriving DecidableEq

/-- A filesystem: contents by path, none when the path does not exist. -/
def FS : Type := String → Option String

/-- Effect of one operation: truncate creates or empties the file, append
extends it, rename moves src over dst (clobbering dst). -/
def applyOp (fs : FS) : FsOp → FS
  | FsOp.truncate p => fun q => if q = p then some "" else fs q
  | FsOp.append p d => fun q => if q = p then some ((fs p).getD "" ++ d) else fs q
  | FsOp.rename a b => fun q => if q = b then fs a else if q = a then none else fs q

def runOps (fs : FS) (ops : List FsOp) : FS := ops.foldl applyOp fs

/-- Recognizer for the rename operation. -/
def isRename : FsOp → Bool
  | FsOp.rename _ _ => true
  | _ => false

/-- Minimal JSON rendering of an optional string field. -/
def jopt : Option String → String
  | some s => "\"" ++ s ++ "\""
  | none => "null"

/-- Minimal JSON rendering of an optional number field. -/
def jnum : Option Nat → String
  | some n => toString n
  | none => "null"

/-- Serialized form of one mirror entry (json.dump). -/
def dumpMirror (m : Mirror) : String :=
  "\x7b\"enabled\": "
    ++ (match m.enabled with
        | some true => "true"
        | some false => "false"
        | none => "null")
    ++ ", \"schedule\": " ++ jopt m.schedule
    ++ ", \"timeout\": " ++ jnum m.timeout
    ++ ", \"last_sync\": " ++ jopt m.lastSync
    ++ ", \"last_status\": " ++ jopt m.lastStatus
    ++ ", \"last_error\": " ++ jopt m.lastError
    ++ ", \"next_sync\": " ++ jopt m.nextSync
    ++ ", \"last_duration\": " ++ jnum m.lastDuration
    ++ "\x7d"

/-- Serialized form of the whole configuration (json.dump). -/
def dumpConfig (cfg : Config) : String :=
  "\x7b\"version\": " ++ jopt (some cfg.version)
    ++ ", \"defaults\": \x7b\"schedule\": " ++ jopt (some cfg.defaults.schedule)
    ++ ", \"timeout\": " ++ toString cfg.defaults.timeout
    ++ ", \"max_concurrent\": " ++ toString cfg.defaults.maxConcurrent
    ++ "\x7d, \"mirrors\": \x7b"
    ++ String.intercalate ", "
        (cfg.mirrors.map (fun p => jopt (some p.1) ++ ": " ++ dumpMirror p.2))
    ++ "\x7d\x7d"

/-- Path of the persisted configuration (CONFIG_FILE). -/
def configFile : String := "/opt/cgit/data/mirror-config.json"

/-- MirrorConfig.save: write the dump to path.tmp, then one rename onto the
final path. -/
def managerSaveOps (path : String) (cfg : Config) : List FsOp :=
  [FsOp.truncate (path ++ ".tmp"),
   FsOp.append (path ++ ".tmp") (dumpConfig cfg),
   FsOp.rename (path ++ ".tmp") path]

/-- SimpleConfigManager.save_config: open the final path for writing
(truncating it) and write the dump there, with no temporary file and no
rename. -/
def saveConfigOps (cfg : Config) : List FsOp :=
  [FsOp.truncate configFile,
   FsOp.append configFile (dumpConfig cfg)]

/-! ## Status updates and disabling -/

/-- First entry of the mirrors map with the given name. -/
def lookupMirror (cfg : Config) (name : String) : Option Mirror :=
  (cfg.mirrors.find? (fun p => p.1 = name)).map Prod.snd

/-- Replace the named entry of the mirrors map. -/
def setMirror (cfg : Config) (name : String) (m : Mirror) : Config :=
  { cfg with mirrors := cfg.mirrors.map (fun p => if p.1 = name then (name, m) else p) }

def pad2 (n : Nat) : String := if n < 10 then "0" ++ toString n else toString n

/-- datetime.isoformat at the precision of this model. -/
def fmtIso (d : DateTime) : String :=
  toString d.year ++ "-" ++ pad2 d.month ++ "-" ++ pad2 d.day ++ "T"
    ++ pad2 d.hour ++ ":" ++ pad2 d.minute ++ ":00"

/-- Outcome of SimpleConfigManager.update_sync_status: the resulting
configuration, whether save_config ran, and the Python return value of the
call (the function has no return statement on any path, so it is always
None). -/
structure DaemonUpdateResult where
  config : Config
  saved : Bool
  retval : Option Bool
deriving DecidableEq

/-- SimpleConfigManager.update_sync_status (daemon lines 188-207): return
immediately when the name is absent; otherwise set last_sync to now
(ISO + Z), last_status, last_error, try to recompute next_sync, then
save_config. -/
def daemonUpdateSyncStatus (cfg : Config) (name : String) (status : String)
    (errorMessage : Option String) (now : DateTime) : DaemonUpdateResult :=
  if !(hasMirror cfg name) then ⟨cfg, false, none⟩
  else
    match lookupMirror cfg name with
    | none => ⟨cfg, false, none⟩
    | some m =>
      let m1 := { m with lastSync := some (fmtIso now ++ "Z"),
                         lastStatus := some status, lastError := errorMessage }
      let m2 :=
        match parseCron (m1.schedule.getD cfg.defaults.schedule) with
        | some c =>
          match cronNext c now with
          | some nx => { m1 with nextSync := some (fmtIso nx ++ "Z") }
          | none => m1
        | none => m1
      ⟨setMirror cfg name m2, true, none⟩

/-- MirrorConfig._calculate_next_sync: next fire of the schedule from now,
null on any evaluation error. -/
def calculateNextSync (schedule : String) (now : DateTime) : Option String :=
  match parseCron schedule with
  | some c =>
    match cronNext c now with
    | some nx => some (fmtIso nx)
    | none => none
  | none => none

/-- Outcome of MirrorConfig.update_sync_status: the Boolean the function
returns, the resulting configuration, and whether save ran. -/
structure ManagerUpdateResult where
  result : Bool
  config : Config
  saved : Bool
deriving DecidableEq

/-- MirrorConfig.update_sync_status (manager lines 164-191): return False
when the name is absent; otherwise set last_sync to now (ISO), last_status,
last_error, last_duration when given, recompute next_sync, then save. The
none result models the uncaught KeyError raised when the entry has no
schedule key. -/
def managerUpdateSyncStatus (cfg : Config) (name : String) (status : String)
    (error : Option String) (duration : Option Nat) (now : DateTime) :
    Option ManagerUpdateResult :=
  if !(hasMirror cfg name) then some ⟨false, cfg, false⟩
  else
    match lookupMirror cfg name with
    | none => some ⟨false, cfg, false⟩
    | some m =>
      let m1 := { m with lastSync := some (fmtIso now),
                         lastStatus := some status, lastError := error }
      let m2 := match duration with
        | some d => { m1 with lastDuration := some d }
        | none => m1
      match m2.schedule with
      | none => none
      | some sched =>
        some ⟨true, setMirror cfg name { m2 with nextSync := calculateNextSync sched now }, true⟩

/-- MirrorConfig.disable_mirror (manager lines 119-134): report False when
the name is absent, otherwise set only the enabled field to False and save.
Returns the reported Boolean, the resulting configuration and whether save
ran. -/
def disable_mirror (cfg : Config) (name : String) : Bool × Config × Bool :=
  if !(hasMirror cfg name) then (false, cfg, false)
  else
    match lookupMirror cfg name with
    | none => (false, cfg, false)
    | some m => (true, setMirror cfg name { m with enabled := some false }, true)

/-! ## The sync executor

sync_repository (daemon lines 218-269) runs the external git command with
a timeout and maps its outcome to a result tuple; sync_cycle (lines
309-316) records the status. The external command invocation is abstracted
as an input of inductive type CmdOutcome: normal exit with a code and
stderr text, expiry of the timeout (subprocess.TimeoutExpired), or any
other invocation fault (the generic except branch). -/

inductive CmdOutcome where
  | exited (code : Int) (stderr : String)
  | timedOut
  | excOther (msg : String)
deriving DecidableEq

/-- The result tuple (repo_name, success, duration, error_message). -/
structure SyncResult where
  name : String
  success : Bool
  duration : Nat
  error : Option String
deriving DecidableEq

/-- The repository-local path derived from the name. -/
def repoPath (name : String) : String :=
  "/opt/cgit/data/repositories/" ++ name ++ ".git"

/-- sync_repository: missing local path gives an immediate failure with
duration 0 and no command invocation; otherwise exit code zero gives
success, and a nonzero exit, a timeout or any other fault give failure with
a descriptive message and the measured duration. -/
def sync_repository (name : String) (timeout : Nat) (pathExists : Bool)
    (elapsed : Nat) (outcome : CmdOutcome) : SyncResult :=
  if !pathExists then
    ⟨name, false, 0, some ("Repository path does not exist: " ++ repoPath name)⟩
  else
    match outcome with
    | CmdOutcome.exited c s =>
      if c = 0 then ⟨name, true, elapsed, none⟩
      else
        ⟨name, false, elapsed,
          some ("Git command failed (exit " ++ toString c ++ "): " ++ s)⟩
    | CmdOutcome.timedOut =>
      ⟨name, false, elapsed, some ("Timeout after " ++ toString timeout ++ "s")⟩
    | CmdOutcome.excOther m =>
      ⟨name, false, elapsed, some ("Unexpected error: " ++ m)⟩

/-- The status string sync_cycle records for a result (lines 313-316):
update_sync_status(name, success-or-failed, error). -/
def recordedStatus (r : SyncResult) : String :=
  if r.success then "success" else "failed"

/-- The failed status literal, as passed by sync_cycle. -/
def statusFailed : String := "failed"

/-! ## Log rotation

States are the set of numbered backup files (log.1, log.2, ...),
represented as a duplicate-free list of numbers; the active log exists and
has reached the size threshold when rotation runs. -/

def maxRotatedLogs : Nat := 3

/-- Path of the active daemon log file. -/
def logFileBase : String := "/opt/cgit/data/logs/mirror-sync.log"

/-- Filename of numbered backup n, as globbed and sorted by the daemon. -/
def backupName (n : Nat) : String := logFileBase ++ "." ++ toString n

/-- Add a backup number; a rename onto an existing path clobbers it, so the
set is unchanged when the number is already present. -/
def insertNum (n : Nat) (l : List Nat) : List Nat :=
  if l.contains n then l else n :: l

/-- SimpleLogger.check_rotation, rotation branch (daemon lines 54-79):
glob the numbered backups, sort the filenames as strings in reverse,
delete the entries from position MAX_ROTATED_LOGS-1 on, rename each of the
first MAX_ROTATED_LOGS-1 entries from n to n+1 (in that order), then move
the active file to backup 1. -/
def daemonRotate (backups : List Nat) : List Nat :=
  let sortedDesc := (sortByKey backupName backups).reverse
  let toDelete := sortedDesc.drop (maxRotatedLogs - 1)
  let toShift := sortedDesc.take (maxRotatedLogs - 1)
  let afterDelete := backups.filter (fun n => !(toDelete.contains n))
  let afterShift := toShift.foldl
    (fun st n => insertNum (n + 1) (st.filter (fun k => k ≠ n))) afterDelete
  insertNum 1 afterShift

/-- MirrorLogger._rotate_logs (mirror-logger.py lines 40-56): remove backup
MAX_ROTATED_LOGS if present, then for i = MAX_ROTATED_LOGS-1 down to 1
rename backup i to i+1 when it exists, then move the active file to
backup 1. -/
def loggerRotate (backups : List Nat) : List Nat :=
  let b1 := if backups.contains maxRotatedLogs then
      backups.filter (fun k => k ≠ maxRotatedLogs)
    else backups
  let shiftIdxs := (List.range (maxRotatedLogs - 1)).map
    (fun j => maxRotatedLogs - 1 - j)
  let b2 := shiftIdxs.foldl
    (fun st i => if st.contains i then insertNum (i + 1) (st.filter (fun k => k ≠ i)) else st)
    b1
  insertNum 1 b2

/-! ## The bounded worker pool of sync_cycle

sync_cycle (daemon lines 295-318) submits one task per due mirror to a
ThreadPoolExecutor created with max_workers = max_concurrent and collects
every result with as_completed before the with-block exits. The pool is
modelled by its documented semantics as a transition system: a pending job
may start only while fewer than max_workers jobs run; a running job may
finish in any order. -/

structure Job where
  name : String
  timeout : Nat
deriving DecidableEq

structure PoolState where
  pending : List Job
  running : List Job
  finished : List Job
deriving DecidableEq

inductive PoolStep (maxWorkers : Nat) : PoolState → PoolState → Prop
  | start (j : Job) (rest : List Job) (s : PoolState) :
      s.running.length < maxWorkers → s.pending = j :: rest →
      PoolStep maxWorkers s ⟨rest, j :: s.running, s.finished⟩
  | finish (j : Job) (l1 l2 : List Job) (s : PoolState) :
      s.running = l1 ++ j :: l2 →
      PoolStep maxWorkers s ⟨s.pending, l1 ++ l2, j :: s.finished⟩

inductive PoolReach (maxWorkers : Nat) (init : PoolState) : PoolState → Prop
  | refl : PoolReach maxWorkers init init
  | tail (t u : PoolState) : PoolReach maxWorkers init t →
      PoolStep maxWorkers t u → PoolReach maxWorkers init u

/-- The concurrency limit sync_cycle passes to the pool:
config defaults max_concurrent. -/
def maxConcurrentOf (cfg : Config) : Nat := cfg.defaults.maxConcurrent

/-- The jobs sync_cycle submits, in the order of the due list. -/
def dueJobs (cfg : Config) (now : DateTime) : List Job :=
  (daemonGetDueMirrors cfg now).map (fun d => ⟨d.name, d.timeout⟩)

/-- Pool state at submission time: every due job pending, none running. -/
def initPool (cfg : Config) (now : DateTime) : PoolState :=
  ⟨dueJobs cfg now, [], []⟩

/-- The batch call has returned: as_completed has yielded every future, so
nothing is pending or running. -/
def poolDrained (s : PoolState) : Prop := s.pending = [] ∧ s.running = []

/-! ## Concrete example inputs

Named constants used by the concrete evaluations below. -/

def sched6 : String := "0 */6 * * *"

def badSched : String := "oops"

def repoName : String := "repo"

def otherName : String := "absent"

def ver10 : String := "1.0"

def oldTs : String := "2000-01-01T00:00:00"

def oldContent : String := "old-config"

def defaultsEx : Defaults := { schedule := sched6, timeout := 600, maxConcurrent := 3 }

/-- An enabled entry with a parsable schedule that has never been synced. -/
def mirrorNever : Mirror :=
  { enabled := some true, schedule := some sched6, timeout := some 600,
    lastSync := none, lastStatus := none, lastError := none, nextSync := none,
    lastDuration := none }

/-- A never-synced enabled entry whose schedule does not parse. -/
def mirrorBad : Mirror := { mirrorNever with schedule := some badSched }

/-- A previously-synced entry whose enabled key is absent. -/
def mirrorNoEnabled : Mirror :=
  { mirrorNever with enabled := none, lastSync := some oldTs }

/-- A disabled entry whose schedule fires long before the example instant. -/
def mirrorDisabled : Mirror :=
  { mirrorNever with enabled := some false, lastSync := some oldTs }

def cfgNever : Config :=
  { version := ver10, defaults := defaultsEx, mirrors := [(repoName, mirrorNever)] }

def cfgBad : Config :=
  { version := ver10, defaults := defaultsEx, mirrors := [(repoName, mirrorBad)] }

def cfgNoEnabled : Config :=
  { version := ver10, defaults := defaultsEx, mirrors := [(repoName, mirrorNoEnabled)] }

def cfgDisabled : Config :=
  { version := ver10, defaults := defaultsEx, mirrors := [(repoName, mirrorDisabled)] }

/-- The example evaluation instant, shortly after the sentinel. -/
def nowEx : DateTime := ⟨2000, 1, 2, 3, 4⟩

/-- An example filesystem where the configuration was persisted earlier. -/
def fsEx : FS := fun p => if p = configFile then some oldContent else none

/-- The cron value of the example schedule. -/
def cron6 : Cron := (parseCron sched6).getD ⟨[], [], [], [], []⟩

/-- The next fire of the example schedule after the example instant. -/
def next6 : DateTime := (cronNext cron6 nowEx).getD sentinel

/-! ## Supporting lemmas -/

theorem daysInMonth_le (y m : Nat) : daysInMonth y m ≤ 31 := by
  unfold daysInMonth
  split <;> [skip; split <;> omega]
  split <;> omega

theorem daysInMonth_pos (y m : Nat) : 1 ≤ daysInMonth y m := by
  unfold daysInMonth
  split <;> [skip; split <;> omega]
  split <;> omega

theorem validDT_succMin (d : DateTime) (h : validDT d) : validDT d.succMin := by
  have h31 := daysInMonth_le d.year d.month
  have hp := daysInMonth_pos d.year d.month
  simp only [validDT, Bool.and_eq_true, decide_eq_true_eq] at h
  unfold DateTime.succMin
  split
  · simp only [validDT, Bool.and_eq_true, decide_eq_true_eq]; omega
  · split
    · simp only [validDT, Bool.and_eq_true, decide_eq_true_eq]; omega
    · split
      · simp only [validDT, Bool.and_eq_true, decide_eq_true_eq]; omega
      · split
        · have hp2 := daysInMonth_pos d.year (d.month + 1)
          simp only [validDT, Bool.and_eq_true, decide_eq_true_eq]; omega
        · have hp3 := daysInMonth_pos (d.year + 1) 1
          simp only [validDT, Bool.and_eq_true, decide_eq_true_eq]; omega

theorem encode_lt_succMin (d : DateTime) (h : validDT d) :
    encode d < encode d.succMin := by
  have h31 := daysInMonth_le d.year d.month
  simp only [validDT, Bool.and_eq_true, decide_eq_true_eq] at h
  unfold DateTime.succMin
  split
  · simp only [encode]; omega
  · split
    · simp only [encode]; omega
    · split
      · simp only [encode]; omega
      · split
        · simp only [encode]; omega
        · simp only [encode]; omega

theorem cronSearch_gt (c : Cron) (a : DateTime) :
    ∀ (fuel : Nat) (d : DateTime), validDT d → encode a < encode d →
      ∀ t, cronSearch c fuel d = some t → encode a < encode t := by
  intro fuel
  induction fuel with
  | zero => intro d _ _ t ht; simp [cronSearch] at ht
  | succ n ih =>
    intro d hv hlt t ht
    simp only [cronSearch] at ht
    split at ht
    · cases ht; exact hlt
    · exact ih d.succMin (validDT_succMin d hv)
        (Nat.lt_trans hlt (encode_lt_succMin d hv)) t ht

/-- The next fire time is strictly after a valid anchor. -/
theorem cronNext_gt (c : Cron) (a t : DateTime) (hv : validDT a)
    (h : cronNext c a = some t) : encode a < encode t :=
  cronSearch_gt c a cronFuel a.succMin (validDT_succMin a hv)
    (encode_lt_succMin a hv) t h

theorem parseTs_valid (s : String) (d : DateTime) (h : parseTs s = some d) :
    validDT d = true := by
  unfold parseTs at h
  split at h
  · simp only [Option.bind_eq_bind, Option.bind_eq_some] at h
    obtain ⟨_, _, _, _, _, _, _, _, _, _, _, _, h⟩ := h
    split at h
    · cases h; assumption
    · cases h
  · cases h

theorem mem_insSorted {α : Type} (key : α → String) (x : α) (l : List α) :
    ∀ a, a ∈ insSorted key x l → a = x ∨ a ∈ l := by
  induction l with
  | nil => intro a ha; simp [insSorted] at ha; simp [ha]
  | cons y ys ih =>
    intro a ha
    simp only [insSorted] at ha
    split at ha
    · rcases List.mem_cons.mp ha with h | h
      · exact Or.inr (h ▸ List.mem_cons_self y ys)
      · rcases ih a h with h2 | h2
        · exact Or.inl h2
        · exact Or.inr (List.mem_cons_of_mem y h2)
    · rcases List.mem_cons.mp ha with h | h
      · exact Or.inl h
      · exact Or.inr h

theorem empty_le_string (s : String) : "" ≤ s := by
  refine le_of_not_lt ?_
  intro h
  rw [String.lt_iff_toList_lt] at h
  generalize hl : s.toList = l at h
  have he : ("" : String).toList = [] := rfl
  rw [he] at h
  cases h

theorem lexLt_iff (l1 l2 : List Char) : lexLt l1 l2 = true ↔ l1 < l2 := by
  induction l1 generalizing l2 with
  | nil =>
    cases l2 with
    | nil =>
      simp only [lexLt, Bool.false_eq_true, false_iff]
      intro h; cases h
    | cons b bs =>
      simp only [lexLt, true_iff]
      exact List.Lex.nil
  | cons a as ih =>
    cases l2 with
    | nil =>
      simp only [lexLt, Bool.false_eq_true, false_iff]
      intro h; cases h
    | cons b bs =>
      simp only [lexLt]
      split
      · rename_i hab
        simp only [true_iff]
        exact List.Lex.rel hab
      · rename_i hab
        split
        · rename_i hba
          simp only [Bool.false_eq_true, false_iff]
          intro h
          cases h with
          | cons h3 => exact lt_irrefl a hba
          | rel h1 => exact hab h1
        · rename_i hba
          have heq : a = b := le_antisymm (le_of_not_lt hba) (le_of_not_lt hab)
          subst heq
          rw [ih bs]
          constructor
          · exact fun h => List.Lex.cons h
          · intro h
            cases h with
            | cons h3 => exact h3
            | rel h1 => exact absurd h1 hab

theorem strLt_iff (a b : String) : strLt a b = true ↔ a < b := by
  rw [String.lt_iff_toList_lt]
  exact lexLt_iff a.toList b.toList

theorem pairwise_insSorted {α : Type} (key : α → String) (x : α) (l : List α)
    (h : l.Pairwise (fun a b => key a ≤ key b)) :
    (insSorted key x l).Pairwise (fun a b => key a ≤ key b) := by
  induction l with
  | nil => simp [insSorted]
  | cons y ys ih =>
    rcases List.pairwise_cons.mp h with ⟨hy, hys⟩
    simp only [insSorted]
    split
    · rename_i hcmp
      refine List.pairwise_cons.mpr ⟨?_, ih hys⟩
      intro b hb
      rcases mem_insSorted key x ys b hb with hb2 | hb2
      · exact hb2 ▸ le_of_lt ((strLt_iff _ _).mp hcmp)
      · exact hy b hb2
    · rename_i hcmp
      refine List.pairwise_cons.mpr ⟨?_, h⟩
      intro b hb
      have hxy : key x ≤ key y :=
        le_of_not_lt (fun hlt => hcmp ((strLt_iff _ _).mpr hlt))
      rcases List.mem_cons.mp hb with hb2 | hb2
      · exact hb2 ▸ hxy
      · exact le_trans hxy (hy b hb2)

theorem sortByKey_pairwise {α : Type} (key : α → String) (l : List α) :
    (sortByKey key l).Pairwise (fun a b => key a ≤ key b) := by
  induction l with
  | nil => exact List.Pairwise.nil
  | cons a l ih => exact pairwise_insSorted key a (sortByKey key l) ih

theorem mem_sortByKey {α : Type} (key : α → String) (l : List α) (a : α)
    (h : a ∈ sortByKey key l) : a ∈ l := by
  induction l with
  | nil => simp [sortByKey] at h
  | cons x xs ih =>
    rcases mem_insSorted key x (sortByKey key xs) a h with h2 | h2
    · exact h2 ▸ List.mem_cons_self x xs
    · exact List.mem_cons_of_mem x (ih h2)

theorem hasMirror_of_lookup (cfg : Config) (name : String) (m : Mirror)
    (h : lookupMirror cfg name = some m) : hasMirror cfg name = true := by
  unfold lookupMirror at h
  unfold hasMirror
  obtain ⟨p, hp⟩ : ∃ p, cfg.mirrors.find? (fun q => q.1 = name) = some p := by
    cases hf : cfg.mirrors.find? (fun q => q.1 = name) with
    | none => rw [hf] at h; cases h
    | some p => exact ⟨p, rfl⟩
  have h1 : p ∈ cfg.mirrors := List.mem_of_find?_eq_some hp
  have h2 := List.find?_some hp
  exact List.any_eq_true.mpr ⟨p, h1, h2⟩

theorem find_map_set_self (l : List (String × Mirror)) (name : String) (m : Mirror)
    (h : l.any (fun p => p.1 = name) = true) :
    (l.map (fun p => if p.1 = name then (name, m) else p)).find?
        (fun p => p.1 = name) = some (name, m) := by
  induction l with
  | nil => simp at h
  | cons p xs ih =>
    by_cases hp : p.1 = name
    · simp only [List.map_cons, if_pos hp]
      exact List.find?_cons_of_pos _ (by simp)
    · simp only [List.map_cons, if_neg hp]
      rw [List.find?_cons_of_neg _ (by simpa using hp)]
      exact ih (by simpa [hp] using h)

theorem find_map_set_other (l : List (String × Mirror)) (name other : String)
    (m : Mirror) (h : other ≠ name) :
    (l.map (fun p => if p.1 = name then (name, m) else p)).find?
        (fun p => p.1 = other)
      = l.find? (fun p => p.1 = other) := by
  induction l with
  | nil => rfl
  | cons p xs ih =>
    by_cases hp : p.1 = name
    · have h2 : ¬ (p.1 = other) := by rw [hp]; exact fun hh => h hh.symm
      simp only [List.map_cons, if_pos hp]
      rw [List.find?_cons_of_neg _ (by simpa using fun hh => h hh.symm),
        List.find?_cons_of_neg _ (by simpa using h2)]
      exact ih
    · simp only [List.map_cons, if_neg hp]
      by_cases ho : p.1 = other
      · rw [List.find?_cons_of_pos _ (by simpa using ho),
          List.find?_cons_of_pos _ (by simpa using ho)]
      · rw [List.find?_cons_of_neg _ (by simpa using ho),
          List.find?_cons_of_neg _ (by simpa using ho)]
        exact ih

theorem lookupMirror_set_self (cfg : Config) (name : String) (m : Mirror)
    (h : hasMirror cfg name = true) :
    lookupMirror (setMirror cfg name m) name = some m := by
  unfold hasMirror at h
  unfold lookupMirror setMirror
  simp only
  rw [find_map_set_self cfg.mirrors name m h]
  rfl

theorem lookupMirror_set_other (cfg : Config) (name other : String) (m : Mirror)
    (h : other ≠ name) :
    lookupMirror (setMirror cfg name m) other = lookupMirror cfg other := by
  unfold lookupMirror setMirror
  simp only
  rw [find_map_set_other cfg.mirrors name other m h]

theorem assoc_key_unique {β : Type} (l : List (String × β)) (p q : String × β)
    (hnd : (l.map Prod.fst).Nodup) (hp : p ∈ l) (hq : q ∈ l) (he : p.1 = q.1) :
    p = q := by
  induction l with
  | nil => cases hp
  | cons x xs ih =>
    rw [List.map_cons, List.nodup_cons] at hnd
    rcases List.mem_cons.mp hp with hp1 | hp1 <;>
      rcases List.mem_cons.mp hq with hq1 | hq1
    · rw [hp1, hq1]
    · exact absurd (List.mem_map.mpr ⟨q, hq1, by rw [← he, hp1]⟩) hnd.1
    · exact absurd (List.mem_map.mpr ⟨p, hp1, by rw [he, hq1]⟩) hnd.1
    · exact ih hnd.2 hp1 hq1

theorem managerDueEntry_some (now : DateTime) (n : String) (m : Mirror)
    (x : String × Mirror) (h : managerDueEntry now n m = some x) :
    x = (n, m) ∧ m.enabled.getD false = true := by
  unfold managerDueEntry at h
  split at h
  · cases h
  · rename_i hcond
    have he : m.enabled.getD false = true := by simpa using hcond
    refine ⟨?_, he⟩
    split at h
    · split at h
      · exact (Option.some.inj h).symm
      · cases h
    · split at h
      · exact (Option.some.inj h).symm
      · cases h

theorem daemonDueItem_some (dfl : Defaults) (now : DateTime) (n : String)
    (m : Mirror) (d : DueItem) (h : daemonDueItem dfl now n m = some d) :
    d.name = n ∧ m.enabled.getD true = true := by
  unfold daemonDueItem at h
  split at h
  · cases h
  · rename_i hcond
    have he : m.enabled.getD true = true := by simpa using hcond
    refine ⟨?_, he⟩
    split at h
    · split at h
      · cases Option.some.inj h; rfl
      · cases h
    · cases h

theorem daemonEval_none_of_parse (s : String) (ls : Option String)
    (hp : parseCron s = none) : daemonEval s ls = none := by
  unfold daemonEval
  cases ls with
  | none => simp [hp]
  | some ts => cases hpt : parseTs (stripZ ts) <;> simp [hp, hpt]

theorem managerEval_none_of_parse (m : Mirror) (now : DateTime) (s : String)
    (hs : m.schedule = some s) (hp : parseCron s = none) :
    managerEval m now = none := by
  unfold managerEval
  cases hls : m.lastSync with
  | none => simp [hs, hp]
  | some ts => cases hpt : parseTs ts <;> simp [hs, hp, hpt]

theorem daemonDueItem_none_of_parse (dfl : Defaults) (now : DateTime)
    (n : String) (m : Mirror) (s : String) (hs : m.schedule = some s)
    (hp : parseCron s = none) : daemonDueItem dfl now n m = none := by
  unfold daemonDueItem
  rw [hs]
  simp [daemonEval_none_of_parse s m.lastSync hp]

/-- Invariant of the pool transition system: the running set stays within
the worker bound and jobs are conserved. -/
theorem pool_invariant (maxWorkers : Nat) (jobs : List Job) (s : PoolState)
    (h : PoolReach maxWorkers ⟨jobs, [], []⟩ s) :
    s.running.length ≤ maxWorkers
      ∧ s.pending.length + s.running.length + s.finished.length = jobs.length := by
  induction h with
  | refl => simp
  | tail t u hreach hstep ih =>
    cases hstep with
    | start j rest s2 hlt hpend =>
      have hl : t.pending.length = rest.length + 1 := by rw [hpend]; rfl
      constructor
      · simpa using hlt
      · simp only [List.length_cons]
        omega
    | finish j l1 l2 s2 hrun =>
      have hl : t.running.length = l1.length + l2.length + 1 := by
        rw [hrun]; simp; omega
      constructor
      · simp only [List.length_append]
        omega
      · simp only [List.length_append, List.length_cons]
        omega

/-- A status string equals success exactly when the result is a success. -/
theorem recordedStatus_eq_success (r : SyncResult) :
    (recordedStatus r = "success") ↔ r.success = true := by
  unfold recordedStatus
  cases hr : r.success <;> simp [hr]

/-! ## Main theorems -/

/-- C1 (counterexample): the daemon save path is not crash-atomic. The
first micro-operation of SimpleConfigManager.save_config truncates the
final path itself, so at the crash point after it the previously-persisted
file is empty instead of byte-for-byte unchanged, and save_config contains
no rename at all. -/
theorem save_config_not_crash_atomic :
    fsEx configFile = some oldContent
    ∧ runOps fsEx ((saveConfigOps cfgNever).take 1) configFile = some ""
    ∧ some "" ≠ some oldContent
    ∧ (saveConfigOps cfgNever).filter isRename = [] := by
  refine ⟨rfl, rfl, by decide, rfl⟩

/-- C1 (amended): MirrorConfig.save is crash-atomic: it writes the dump to
a temporary file named by appending .tmp to the final path (hence in the
same directory) and then performs a single rename, so at every crash point
before the rename the previously-persisted file is byte-for-byte
unchanged. The daemon save path does not share this property (see the
counterexample). -/
theorem manager_save_crash_atomic (fs : FS) (path : String) (cfg : Config)
    (k : Nat) (hk : k < 3) :
    runOps fs ((managerSaveOps path cfg).take k) path = fs path := by
  have hne : path ≠ path ++ ".tmp" := by
    intro h
    have hlen := congrArg String.length h
    rw [String.length_append] at hlen
    have h4 : (".tmp" : String).length = 4 := rfl
    omega
  match k, hk with
  | 0, _ => rfl
  | 1, _ => simp [managerSaveOps, runOps, applyOp, hne]
  | 2, _ => simp [managerSaveOps, runOps, applyOp, hne]

/-- C1 (witness for the amended theorem), at the concrete filesystem and
configuration: the crash point right before the rename leaves the
previously-persisted bytes in place. -/
theorem manager_save_crash_atomic_witness :
    2 < 3
    ∧ runOps fsEx ((managerSaveOps configFile cfgNever).take 2) configFile
        = fsEx configFile :=
  ⟨by decide, manager_save_crash_atomic fsEx configFile cfgNever 2 (by decide)⟩

/-- C2 (counterexample): a job whose command times out is recorded as
failed, not timeout, and a job whose repository path is missing is
recorded as failed, not error; the daemon never records the statuses the
claim requires for those cases. -/
theorem recorded_status_counterexample :
    recordedStatus (sync_repository repoName 5 true 7 CmdOutcome.timedOut) = "failed"
    ∧ recordedStatus (sync_repository repoName 5 false 0 CmdOutcome.timedOut) = "failed"
    ∧ ("failed" : String) ≠ "timeout"
    ∧ ("failed" : String) ≠ "error" := by
  refine ⟨rfl, rfl, by decide, by decide⟩

/-- C2 (amended): the daemon records exactly success when the external
command exits zero and failed in every other case (nonzero exit, timeout,
other invocation fault, or missing repository path -- in which case the
result does not depend on any command outcome, i.e. no command is
consulted); the cases are distinguished only by the error message. -/
theorem sync_status_success_or_failed (name : String) (timeout : Nat)
    (pathExists : Bool) (elapsed : Nat) (outcome : CmdOutcome) :
    (recordedStatus (sync_repository name timeout pathExists elapsed outcome) = "success"
      ∨ recordedStatus (sync_repository name timeout pathExists elapsed outcome) = "failed")
    ∧ (recordedStatus (sync_repository name timeout pathExists elapsed outcome) = "success"
        ↔ pathExists = true ∧ ∃ s, outcome = CmdOutcome.exited 0 s)
    ∧ (∀ o1 o2 : CmdOutcome, sync_repository name timeout false elapsed o1
        = sync_repository name timeout false elapsed o2) := by
  have key : (sync_repository name timeout pathExists elapsed outcome).success = true
      ↔ pathExists = true ∧ ∃ s, outcome = CmdOutcome.exited 0 s := by
    cases pathExists with
    | false => simp [sync_repository]
    | true =>
      cases outcome with
      | exited c s =>
        by_cases hc : c = 0
        · subst hc; simp [sync_repository]
        · simp [sync_repository, hc]
      | timedOut => simp [sync_repository]
      | excOther m => simp [sync_repository]
  refine ⟨?_, (recordedStatus_eq_success _).trans key, fun o1 o2 => rfl⟩
  cases hb : (sync_repository name timeout pathExists elapsed outcome).success with
  | false => right; simp [recordedStatus, hb]
  | true => left; simp [recordedStatus, hb]

/-- C3 (code_bug evaluation): starting from no backups, the fourth
size-triggered rotation of the daemon logger (the MAX+1-st, with
MAX_ROTATED_LOGS = 3) deletes backup 1 -- the newest -- and renames
backup 3 to 4, leaving backups 1, 3, 4: a backup numbered beyond MAX
exists and the oldest content survives. MirrorLogger._rotate_logs, by
contrast, leaves exactly backups 1, 2, 3 as the claim states. -/
theorem rotation_fourth_divergence :
    daemonRotate (daemonRotate (daemonRotate (daemonRotate []))) = [1, 3, 4]
    ∧ loggerRotate (loggerRotate (loggerRotate (loggerRotate []))) = [1, 2, 3]
    ∧ maxRotatedLogs + 1 = 4 := by
  refine ⟨by decide, by decide, rfl⟩

set_option maxRecDepth 40000 in
/-- C4 (code_bug evaluation): an enabled, never-synced entry with the
parsable schedule 0 */6 * * * is returned as due by the daemon computation
(which anchors at the 2000-01-01 sentinel) but not by the manager
computation, which anchors the cron evaluation at now itself, so the next
fire is strictly after now; the claim (and the first-sync remark in the
manager except branch) say it must always be due. -/
theorem never_synced_due_divergence :
    mirrorNever.lastSync = none
    ∧ (parseCron sched6).isSome = true
    ∧ (daemonGetDueMirrors cfgNever nowEx).map DueItem.name = [repoName]
    ∧ managerGetDueMirrors cfgNever nowEx = [] := by
  refine ⟨rfl, by decide, by decide, by decide⟩

/-- C5: for the batch sync_cycle submits (one job per due mirror, in due
order) on a pool created with max_workers = the configured max_concurrent,
every reachable pool state runs at most max_concurrent jobs, and when the
batch call has returned (as_completed exhausted: nothing pending or
running) every submitted job has produced a result. -/
theorem sync_cycle_concurrency_bound (cfg : Config) (now : DateTime)
    (s : PoolState)
    (h : PoolReach (maxConcurrentOf cfg) (initPool cfg now) s) :
    s.running.length ≤ maxConcurrentOf cfg
    ∧ (poolDrained s → s.finished.length = (dueJobs cfg now).length) := by
  have hinv := pool_invariant (maxConcurrentOf cfg) (dueJobs cfg now) s h
  refine ⟨hinv.1, ?_⟩
  rintro ⟨hp, hr⟩
  have h2 := hinv.2
  rw [hp, hr] at h2
  simpa using h2

/-- C5 witness: the bound and the completeness implication at the concrete
configuration, at the submission state of the pool. -/
theorem sync_cycle_concurrency_bound_witness :
    (initPool cfgNever nowEx).running.length ≤ maxConcurrentOf cfgNever
    ∧ (poolDrained (initPool cfgNever nowEx) →
        (initPool cfgNever nowEx).finished.length
          = (dueJobs cfgNever nowEx).length) :=
  sync_cycle_concurrency_bound cfgNever nowEx (initPool cfgNever nowEx)
    PoolReach.refl

/-- C6 (counterexample): an enabled never-synced entry whose schedule does
not parse is returned as due by the manager computation (its except branch
includes entries with no last_sync), contradicting the claim that an
unparsable entry is never returned as due. The daemon does skip it. -/
theorem unparsable_included_counterexample :
    parseCron badSched = none
    ∧ (managerGetDueMirrors cfgBad nowEx).map Prod.fst = [repoName]
    ∧ daemonGetDueMirrors cfgBad nowEx = [] := by
  refine ⟨rfl, rfl, rfl⟩

/-- C6 (amended): an entry whose schedule fails to parse is always skipped
by the daemon computation, and skipped by the manager computation exactly
when it has been synced before; a never-synced unparsable entry is
included in the manager due list. In every case the other entries
contribute exactly what they contribute without the bad entry. -/
theorem unparsable_schedule_handling (v : String) (dfl : Defaults)
    (l1 l2 : List (String × Mirror)) (n : String) (m : Mirror)
    (now : DateTime) (s : String) (hs : m.schedule = some s)
    (hp : parseCron s = none) :
    daemonGetDueMirrors ⟨v, dfl, l1 ++ (n, m) :: l2⟩ now
        = daemonGetDueMirrors ⟨v, dfl, l1 ++ l2⟩ now
    ∧ (m.lastSync.isSome = true →
        managerGetDueMirrors ⟨v, dfl, l1 ++ (n, m) :: l2⟩ now
          = managerGetDueMirrors ⟨v, dfl, l1 ++ l2⟩ now)
    ∧ (m.lastSync = none → m.enabled.getD false = true →
        managerDueFilter ⟨v, dfl, l1 ++ (n, m) :: l2⟩ now
          = managerDueFilter ⟨v, dfl, l1⟩ now
            ++ (n, m) :: managerDueFilter ⟨v, dfl, l2⟩ now) := by
  have hme : managerEval m now = none := managerEval_none_of_parse m now s hs hp
  have hd : daemonDueItem dfl now n m = none :=
    daemonDueItem_none_of_parse dfl now n m s hs hp
  refine ⟨?_, ?_, ?_⟩
  · unfold daemonGetDueMirrors daemonDueFilter
    simp only [List.filterMap_append, List.filterMap_cons, hd]
  · intro hsome
    have h1 : managerDueEntry now n m = none := by
      unfold managerDueEntry
      rw [hme]
      split
      · rfl
      · cases hls : m.lastSync with
        | none => rw [hls] at hsome; simp at hsome
        | some ts => simp [hls]
    unfold managerGetDueMirrors managerDueFilter
    simp only [List.filterMap_append, List.filterMap_cons, h1]
  · intro hls hen
    have h2 : managerDueEntry now n m = some (n, m) := by
      unfold managerDueEntry
      rw [hme, hen]
      simp [hls]
    unfold managerDueFilter
    simp only [List.filterMap_append, List.filterMap_cons, h2]

/-- C6 witness for the amended theorem: concrete instantiation with the
unparsable never-synced entry between empty neighbor lists. -/
theorem unparsable_schedule_handling_witness :
    daemonGetDueMirrors ⟨ver10, defaultsEx, [] ++ (repoName, mirrorBad) :: []⟩ nowEx
        = daemonGetDueMirrors ⟨ver10, defaultsEx, [] ++ []⟩ nowEx
    ∧ (mirrorBad.lastSync.isSome = true →
        managerGetDueMirrors ⟨ver10, defaultsEx, [] ++ (repoName, mirrorBad) :: []⟩ nowEx
          = managerGetDueMirrors ⟨ver10, defaultsEx, [] ++ []⟩ nowEx)
    ∧ (mirrorBad.lastSync = none → mirrorBad.enabled.getD false = true →
        managerDueFilter ⟨ver10, defaultsEx, [] ++ (repoName, mirrorBad) :: []⟩ nowEx
          = managerDueFilter ⟨ver10, defaultsEx, []⟩ nowEx
            ++ (repoName, mirrorBad) :: managerDueFilter ⟨ver10, defaultsEx, []⟩ nowEx) :=
  unparsable_schedule_handling ver10 defaultsEx [] [] repoName mirrorBad nowEx
    badSched rfl rfl

/-- C7: both due lists come out of the same stable sort, ascending by the
stored last-sync string with the empty string for never-synced entries
(ISO-8601 timestamps of the single format each script writes compare
lexicographically exactly as their instants compare); consequently every
element preceding a never-synced entry also carries the minimal key, so
never-synced entries come first. -/
theorem due_lists_sorted_by_anchor (cfg : Config) (now : DateTime) :
    (daemonGetDueMirrors cfg now).Pairwise (fun a b => dueKey a ≤ dueKey b)
    ∧ (managerGetDueMirrors cfg now).Pairwise (fun a b => mgrKey a ≤ mgrKey b)
    ∧ (daemonGetDueMirrors cfg now).Pairwise
        (fun a b => b.lastSync = none → dueKey a = "")
    ∧ (managerGetDueMirrors cfg now).Pairwise
        (fun a b => b.2.lastSync = none → mgrKey a = "") := by
  refine ⟨sortByKey_pairwise _ _, sortByKey_pairwise _ _, ?_, ?_⟩
  · refine List.Pairwise.imp ?_ (sortByKey_pairwise dueKey _)
    intro a b hab hb
    have hkb : dueKey b = "" := by simp [dueKey, hb]
    rw [hkb] at hab
    exact le_antisymm hab (empty_le_string _)
  · refine List.Pairwise.imp ?_ (sortByKey_pairwise mgrKey _)
    intro a b hab hb
    have hkb : mgrKey b = "" := by simp [mgrKey, hb]
    rw [hkb] at hab
    exact le_antisymm hab (empty_le_string _)

set_option maxRecDepth 40000 in
/-- C8 (counterexample): on an unknown name the daemon update is a no-op
with no save, but its return value is identical to that of a call with an
existing name (the Python function returns None on every path), so nothing
resembling a not-found or failure report reaches the caller,
contradicting the claim for the daemon component. -/
theorem update_unknown_no_report :
    hasMirror cfgNever otherName = false
    ∧ hasMirror cfgNever repoName = true
    ∧ (daemonUpdateSyncStatus cfgNever otherName statusFailed none nowEx).retval
        = (daemonUpdateSyncStatus cfgNever repoName statusFailed none nowEx).retval
    ∧ (daemonUpdateSyncStatus cfgNever otherName statusFailed none nowEx).config
        = cfgNever
    ∧ (daemonUpdateSyncStatus cfgNever otherName statusFailed none nowEx).saved
        = false := by
  refine ⟨rfl, rfl, rfl, rfl, rfl⟩

/-- C8 (amended): for a name absent from the mirrors map both update
implementations are no-ops: the configuration is unchanged and no save is
performed; the manager returns False to its caller, while the daemon
returns None exactly as on every other path. -/
theorem update_unknown_noop (cfg : Config) (name status : String)
    (err : Option String) (duration : Option Nat) (now : DateTime)
    (h : hasMirror cfg name = false) :
    daemonUpdateSyncStatus cfg name status err now = ⟨cfg, false, none⟩
    ∧ managerUpdateSyncStatus cfg name status err duration now
        = some ⟨false, cfg, false⟩ := by
  constructor
  · unfold daemonUpdateSyncStatus
    rw [h]
    rfl
  · unfold managerUpdateSyncStatus
    rw [h]
    rfl

/-- C8 witness: the amended no-op property at the concrete configuration
and an absent name. -/
theorem update_unknown_noop_witness :
    daemonUpdateSyncStatus cfgNever otherName statusFailed none nowEx
        = ⟨cfgNever, false, none⟩
    ∧ managerUpdateSyncStatus cfgNever otherName statusFailed none none nowEx
        = some ⟨false, cfgNever, false⟩ :=
  update_unknown_noop cfgNever otherName statusFailed none none nowEx rfl

/-- C9: disabling an existing mirror reports True, saves, and changes only
the enabled field of that entry: version, defaults, every other entry and
every other field of the entry (schedule, timeout, last_sync, last_status,
last_error, next_sync, last_duration) are preserved; moreover an entry
with enabled set to false is never produced by either due computation:
per entry, as an element of the manager due list, and by name in the
daemon due list when names are unique. -/
theorem disable_mirror_spec (cfg : Config) (name : String) (m : Mirror)
    (hm : lookupMirror cfg name = some m) :
    (disable_mirror cfg name).1 = true
    ∧ (disable_mirror cfg name).2.2 = true
    ∧ (disable_mirror cfg name).2.1.version = cfg.version
    ∧ (disable_mirror cfg name).2.1.defaults = cfg.defaults
    ∧ lookupMirror (disable_mirror cfg name).2.1 name
        = some { m with enabled := some false }
    ∧ (∀ n2, n2 ≠ name →
        lookupMirror (disable_mirror cfg name).2.1 n2 = lookupMirror cfg n2)
    ∧ (∀ (dfl : Defaults) (now : DateTime) (n2 : String) (m2 : Mirror),
        m2.enabled = some false →
        managerDueEntry now n2 m2 = none ∧ daemonDueItem dfl now n2 m2 = none)
    ∧ (∀ (cfg2 : Config) (now : DateTime) (p : String × Mirror),
        p.2.enabled = some false → p ∉ managerGetDueMirrors cfg2 now)
    ∧ (∀ (cfg2 : Config) (now : DateTime) (n2 : String) (m2 : Mirror),
        (cfg2.mirrors.map Prod.fst).Nodup → (n2, m2) ∈ cfg2.mirrors →
        m2.enabled = some false →
        ∀ d ∈ daemonGetDueMirrors cfg2 now, d.name ≠ n2) := by
  have hh : hasMirror cfg name = true := hasMirror_of_lookup cfg name m hm
  have hdis : disable_mirror cfg name
      = (true, setMirror cfg name { m with enabled := some false }, true) := by
    unfold disable_mirror
    rw [hh, hm]
    rfl
  refine ⟨by rw [hdis], by rw [hdis], by rw [hdis]; rfl, by rw [hdis]; rfl, ?_, ?_, ?_, ?_, ?_⟩
  · rw [hdis]
    exact lookupMirror_set_self cfg name _ hh
  · intro n2 hne
    rw [hdis]
    exact lookupMirror_set_other cfg name n2 _ hne
  · intro dfl now n2 m2 he
    constructor
    · unfold managerDueEntry
      rw [he]
      rfl
    · unfold daemonDueItem
      rw [he]
      rfl
  · intro cfg2 now p hpe hmem
    have h1 := mem_sortByKey mgrKey (managerDueFilter cfg2 now) p hmem
    rcases List.mem_filterMap.mp h1 with ⟨q, hq, hqe⟩
    rcases managerDueEntry_some now q.1 q.2 p hqe with ⟨hpq, hen⟩
    rw [hpq] at hpe
    simp only at hpe
    rw [hpe] at hen
    simp at hen
  · intro cfg2 now n2 m2 hnd hmem he d hd hdn
    have h1 := mem_sortByKey dueKey (daemonDueFilter cfg2 now) d hd
    rcases List.mem_filterMap.mp h1 with ⟨q, hq, hqe⟩
    rcases daemonDueItem_some cfg2.defaults now q.1 q.2 d hqe with ⟨hdn2, hen⟩
    have hqq : q = (n2, m2) :=
      assoc_key_unique cfg2.mirrors q (n2, m2) hnd hq hmem
        (by rw [← hdn2]; exact hdn)
    rw [hqq] at hen
    simp only at hen
    rw [he] at hen
    simp at hen

set_option maxRecDepth 40000 in
/-- C9 witness: disabling the concrete entry flips only enabled, and the
concrete disabled entry is excluded from both due computations. -/
theorem disable_mirror_spec_witness :
    (disable_mirror cfgNever repoName).1 = true
    ∧ lookupMirror (disable_mirror cfgNever repoName).2.1 repoName
        = some { mirrorNever with enabled := some false }
    ∧ managerDueEntry nowEx repoName mirrorDisabled = none
    ∧ daemonDueItem defaultsEx nowEx repoName mirrorDisabled = none
    ∧ (repoName, mirrorDisabled) ∉ managerGetDueMirrors cfgDisabled nowEx := by
  have h := disable_mirror_spec cfgNever repoName mirrorNever rfl
  have he := h.2.2.2.2.2.2.1 defaultsEx nowEx repoName mirrorDisabled rfl
  exact ⟨h.1, h.2.2.2.2.1, he.1, he.2,
    h.2.2.2.2.2.2.2.1 cfgDisabled nowEx (repoName, mirrorDisabled) rfl⟩

set_option maxRecDepth 40000 in
/-- C10 (counterexample): on an entry whose enabled key is absent the two
due computations select different name sets: the daemon defaults absent
enabled to true and returns the (long overdue) entry, the manager defaults
it to false and returns nothing. -/
theorem due_divergence_enabled_absent :
    mirrorNoEnabled.enabled = none
    ∧ (daemonGetDueMirrors cfgNoEnabled nowEx).map DueItem.name = [repoName]
    ∧ managerGetDueMirrors cfgNoEnabled nowEx = [] := by
  refine ⟨rfl, by decide, rfl⟩

/-- C10 (amended): the two due computations disagree on each of the three
cited cases: (a) an entry with the enabled key absent is never returned by
the manager while the daemon decides it exactly as if enabled were true;
(b) a never-synced entry whose schedule parses and fires is never returned
by the manager, since the manager anchors the evaluation at now and the
next fire is strictly later (the daemon anchors at the far-past sentinel
instead); (c) a never-synced enabled entry whose schedule fails to parse
is returned by the manager and skipped by the daemon. -/
theorem due_computations_disagree :
    (∀ (dfl : Defaults) (now : DateTime) (n : String) (m : Mirror),
        m.enabled = none →
        managerDueEntry now n m = none
          ∧ daemonDueItem dfl now n m
              = daemonDueItem dfl now n { m with enabled := some true })
    ∧ (∀ (now : DateTime) (n : String) (m : Mirror) (s : String) (c : Cron)
        (t : DateTime), validDT now = true → m.lastSync = none →
        m.schedule = some s → parseCron s = some c → cronNext c now = some t →
        managerDueEntry now n m = none)
    ∧ (∀ (dfl : Defaults) (now : DateTime) (n : String) (m : Mirror)
        (s : String), m.lastSync = none → m.schedule = some s →
        parseCron s = none → m.enabled = some true →
        managerDueEntry now n m = some (n, m)
          ∧ daemonDueItem dfl now n m = none) := by
  refine ⟨?_, ?_, ?_⟩
  · intro dfl now n m he
    constructor
    · unfold managerDueEntry
      rw [he]
      rfl
    · unfold daemonDueItem
      rw [he]
      rfl
  · intro now n m s c t hv hls hs hpc hn
    unfold managerDueEntry
    split
    · rfl
    · have hme : managerEval m now = some t := by
        unfold managerEval
        simp [hls, hs, hpc, hn]
      rw [hme]
      have hgt := cronNext_gt c now t hv hn
      have hdt : dtLe t now = false := by
        unfold dtLe
        simp
        omega
      simp [hdt]
  · intro dfl now n m s hls hs hpc hen
    constructor
    · unfold managerDueEntry
      rw [hen, managerEval_none_of_parse m now s hs hpc]
      simp [hls]
    · exact daemonDueItem_none_of_parse dfl now n m s hs hpc

set_option maxRecDepth 40000 in
/-- C10 witness: the three disagreements at concrete entries. -/
theorem due_computations_disagree_witness :
    managerDueEntry nowEx repoName mirrorNoEnabled = none
    ∧ managerDueEntry nowEx repoName mirrorNever = none
    ∧ managerDueEntry nowEx repoName mirrorBad = some (repoName, mirrorBad)
    ∧ daemonDueItem defaultsEx nowEx repoName mirrorBad = none := by
  have h1 := (due_computations_disagree.1 defaultsEx nowEx repoName
    mirrorNoEnabled rfl).1
  have h2 := due_computations_disagree.2.1 nowEx repoName mirrorNever sched6
    cron6 next6 (by decide) rfl rfl (by decide) (by decide)
  have h3 := due_computations_disagree.2.2 defaultsEx nowEx repoName mirrorBad
    badSched rfl rfl rfl rfl
  exact ⟨h1, h2, h3.1, h3.2⟩

end DockerCgit
